import Mathlib

/-!
Shallow embedding of the asynchronous job core and the staged pipelines of
the vertu_faq_builder repository.

The definitions below are translated from the source files:
  app/core/enum.py       (JobStatus, JobType)
  app/core/database.py   (the Job row)
  app/core/managers.py   (AsyncJobManager: create / update / cancel / list)
  app/services/qa_generation/service.py, filters.py, generators.py, processors.py
  app/services/answer_enhancement/service.py

Modelling conventions: the SQLAlchemy store is a list of rows in surrogate-key
(insertion) order; the asyncio task dict is an association list; awaiting a
cancelled task is abstracted by the outcome of its unwinding plus the store
effect its cleanup performs; a fallible store write is a Boolean parameter
(false means the execute/commit raised and the transaction left the store
unchanged); float similarity scores are embedded as rationals, since the
code only compares them to a threshold.
-/

namespace VertuFaq

/-- JobStatus from app/core/enum.py. -/
inductive JobStatus where
  | pending
  | running
  | completed
  | cancelled
  | failed
deriving DecidableEq, Repr

/-- JobType from app/core/enum.py. -/
inductive JobType where
  | unknown
  | qa_generation
  | answer_enhancement
deriving DecidableEq, Repr

/-- Membership test used at managers.py:127, status in (COMPLETED, FAILED, CANCELLED). -/
def JobStatus.isTerminal : JobStatus → Bool
  | .completed => true
  | .failed => true
  | .cancelled => true
  | _ => false

/-- One row of the jobs table (app/core/database.py, class Job).
Timestamps are abstract ticks; result is the opaque JSON payload. -/
structure JobRec where
  id : Nat
  job_id : String
  job_type : JobType
  status : JobStatus
  progress : Nat
  result : Option String
  error : Option String
  created_at : Nat
  updated_at : Nat
deriving DecidableEq, Repr

/-- Outcome of awaiting a cancelled task in cancel_async_job (managers.py:136-141):
the task either returns normally, raises asyncio.CancelledError, or raises some
other exception (which the except clause does not catch). -/
inductive Unwind where
  | finished
  | cancelled
  | raised
deriving DecidableEq, Repr

/-- An entry of the _async_tasks dict: the live asyncio.Task for a job.
effect is the store mutation the task performs while unwinding (for example a
terminal write attempted by its own cleanup); unwind is how the await ends. -/
structure TaskHandle where
  unwind : Unwind
  effect : List JobRec → List JobRec

/-- State of the AsyncJobManager singleton plus the jobs table:
store is the table in surrogate-key order, tasks is _async_tasks, nextId is
the autoincrement counter of the primary key. -/
structure MgrState where
  store : List JobRec
  tasks : List (String × TaskHandle)
  nextId : Nat

/-- Dictionary lookup on _async_tasks. -/
def lookupTask : List (String × TaskHandle) → String → Option TaskHandle
  | [], _ => none
  | p :: rest, k => if p.1 = k then some p.2 else lookupTask rest k

/-- Dictionary pop with default None: self._async_tasks.pop(job_id, None). -/
def popTask (ts : List (String × TaskHandle)) (k : String) : List (String × TaskHandle) :=
  ts.filter (fun p => decide (p.1 ≠ k))

/-- Dictionary assignment: self._async_tasks[job_id] = task. -/
def insertTask (ts : List (String × TaskHandle)) (k : String) (v : TaskHandle) :
    List (String × TaskHandle) :=
  if (lookupTask ts k).isSome then
    ts.map (fun p => if p.1 = k then (k, v) else p)
  else
    ts ++ [(k, v)]

/-- Keyword arguments accepted by update_async_job (managers.py:119): any subset
of the mutable Job columns; a present field is written, an absent one kept. -/
structure UpdateKw where
  status : Option JobStatus := none
  progress : Option Nat := none
  result : Option String := none
  error : Option String := none

/-- Test from managers.py:126-127: kwargs.get("status") is terminal. -/
def UpdateKw.isTerminalStatus (kw : UpdateKw) : Bool :=
  match kw.status with
  | some s => s.isTerminal
  | none => false

/-- Application of the VALUES clause of the UPDATE statement to one row;
updated_at is refreshed by the column onupdate hook (database.py:75-77). -/
def applyKw (kw : UpdateKw) (now : Nat) (r : JobRec) : JobRec :=
  { r with
    status := kw.status.getD r.status
    progress := kw.progress.getD r.progress
    result := match kw.result with | some v => some v | none => r.result
    error := match kw.error with | some v => some v | none => r.error
    updated_at := now }

/-- UPDATE jobs SET kwargs WHERE job_id = jid (managers.py:122). -/
def dbUpdate (store : List JobRec) (jid : String) (kw : UpdateKw) (now : Nat) : List JobRec :=
  store.map (fun r => if r.job_id = jid then applyKw kw now r else r)

/-- Result of update_async_job: the manager state afterwards and whether a
persistence exception escaped the call. -/
structure UpdateOutcome where
  state : MgrState
  raised : Bool

/-- AsyncJobManager.update_async_job (managers.py:119-128). storeOk = false
models the session execute/commit raising: the exception propagates before the
terminal-status pop is reached, so the task table is untouched and the
transaction leaves the store unchanged. -/
def update_async_job (st : MgrState) (jid : String) (kw : UpdateKw) (now : Nat)
    (storeOk : Bool) : UpdateOutcome :=
  if storeOk then
    let st1 : MgrState := { st with store := dbUpdate st.store jid kw now }
    if kw.isTerminalStatus then
      { state := { st1 with tasks := popTask st1.tasks jid }, raised := false }
    else
      { state := st1, raised := false }
  else
    { state := st, raised := true }

/-- Result of cancel_async_job: ret = some b when the function returned b,
none when an exception propagated out of it. -/
structure CancelOutcome where
  state : MgrState
  ret : Option Bool

/-- AsyncJobManager.cancel_async_job (managers.py:130-143): pop the handle
(absent means return False), cancel and await the task, and in the finally
block persist status CANCELLED through update_async_job; a non CancelledError
exception from the await, or a store failure in the finally, propagates and
the final return True is never reached. -/
def cancel_async_job (st : MgrState) (jid : String) (now : Nat) (storeOk : Bool) :
    CancelOutcome :=
  match lookupTask st.tasks jid with
  | none => { state := st, ret := some false }
  | some task =>
    let st1 : MgrState := { st with tasks := popTask st.tasks jid }
    let st2 : MgrState := { st1 with store := task.effect st1.store }
    let u := update_async_job st2 jid { status := some JobStatus.cancelled } now storeOk
    if u.raised then
      { state := u.state, ret := none }
    else
      match task.unwind with
      | Unwind.raised => { state := u.state, ret := none }
      | _ => { state := u.state, ret := some true }

/-- AsyncJobManager.create_async_job (managers.py:30-59). jid stands for the
freshly generated uuid4 string; launchOk = false models asyncio.create_task
raising, in which case the except branch records FAILED with str(e) and the
id is still returned. Store writes themselves are taken as succeeding here. -/
def create_async_job (st : MgrState) (jid : String) (jt : JobType) (launchOk : Bool)
    (launchErr : String) (h : TaskHandle) (now : Nat) : MgrState × String :=
  let row : JobRec :=
    { id := st.nextId, job_id := jid, job_type := jt, status := JobStatus.pending,
      progress := 0, result := none, error := none, created_at := now, updated_at := now }
  let st1 : MgrState := { st with store := st.store ++ [row], nextId := st.nextId + 1 }
  if launchOk then
    let st2 : MgrState := { st1 with tasks := insertTask st1.tasks jid h }
    ((update_async_job st2 jid { status := some JobStatus.running } now true).state, jid)
  else
    ((update_async_job st1 jid
        { status := some JobStatus.failed, error := some launchErr } now true).state, jid)

/-- Equality filters built from the kwargs of get_async_jobs (managers.py:78-82);
only attributes of Job are kept, so unknown keys never reach the query. -/
structure JobFilters where
  job_id : Option String := none
  job_type : Option JobType := none
  status : Option JobStatus := none
  progress : Option Nat := none

/-- Conjunction of the filter equality predicates on one row. -/
def rowMatches (f : JobFilters) (r : JobRec) : Bool :=
  (match f.job_id with | some v => decide (r.job_id = v) | none => true) &&
  (match f.job_type with | some v => decide (r.job_type = v) | none => true) &&
  (match f.status with | some v => decide (r.status = v) | none => true) &&
  (match f.progress with | some v => decide (r.progress = v) | none => true)

/-- Row projection of to_dict: when with_result is false the query loads only
the other columns (managers.py:85-98), modelled by clearing the result field. -/
def projectRow (with_result : Bool) (r : JobRec) : JobRec :=
  if with_result then r else { r with result := none }

/-- Shape of the page dictionary returned by get_async_jobs (managers.py:117). -/
structure PageResult where
  items : List JobRec
  total : Nat
  page : Nat
  size : Nat
deriving DecidableEq, Repr

/-- What ORDER BY created_at DESC (managers.py:102) guarantees about the row
sequence a query execution returns: it is a permutation of the rows matching
the filters, weakly descending on created_at. The query names no secondary
sort key, so the relative order of rows tied on created_at is chosen by the
backend and may differ between executions; q below ranges over the admissible
orders. -/
def orderedByCreatedDesc (rows q : List JobRec) : Prop :=
  q.Perm rows ∧ List.Pairwise (fun a b => b.created_at ≤ a.created_at) q

instance orderedByCreatedDesc.dec (rows q : List JobRec) :
    Decidable (orderedByCreatedDesc rows q) := by
  unfold orderedByCreatedDesc
  infer_instance

/-- AsyncJobManager.get_async_jobs (managers.py:71-117): the filtered count is
computed under the same predicates independently of the window, and the items
are the OFFSET (page-1)*size LIMIT size window of the ordered row sequence q
that this execution of the SELECT returned (constrained to
orderedByCreatedDesc of the matching rows in the theorems, since the backend
chooses the order of created_at ties). -/
def get_async_jobs (st : MgrState) (page size : Nat) (with_result : Bool)
    (f : JobFilters) (q : List JobRec) : PageResult :=
  let total := (st.store.filter (rowMatches f)).length
  let items := ((q.drop ((page - 1) * size)).take size).map (projectRow with_result)
  { items := items, total := total, page := page, size := size }

/-- Ceiling division, for the page count of a filtered listing. -/
def ceilDiv (n s : Nat) : Nat := (n + s - 1) / s

/-- Descending created_at with ties broken by the ascending surrogate key:
the order the spec claims for the listing. -/
def lexAfter (a b : JobRec) : Prop :=
  b.created_at < a.created_at ∨ (a.created_at = b.created_at ∧ a.id < b.id)

instance lexAfter.decRel : DecidableRel lexAfter := fun a b => by
  unfold lexAfter
  infer_instance

/-- Transport or provider error raised by the completion capability call. -/
structure PErr where
  msg : String
deriving DecidableEq, Repr

/-- LLMFilter.filter (qa_generation/filters.py:146-167). The completion call is
not wrapped: a provider error propagates. Only json.loads is guarded; decode
returns none for a JSONDecodeError (the stage then keeps the pair) and some k
for a parsed object whose optional keep field is k (absent defaults to True). -/
def LLMFilter.filter (completion : Except PErr String)
    (decode : String → Option (Option Bool)) : Except PErr Bool :=
  match completion with
  | Except.error e => Except.error e
  | Except.ok content =>
    match decode content with
    | none => Except.ok true
    | some keep => Except.ok (keep.getD true)

/-- LLMQAGenerator.generate (qa_generation/generators.py:244-257). Neither the
completion call nor json.loads is guarded, so both kinds of failure propagate. -/
def LLMQAGenerator.generate {α : Type} (completion : Except PErr String)
    (decode : String → Except PErr (List α)) : Except PErr (List α) :=
  match completion with
  | Except.error e => Except.error e
  | Except.ok content => decode content

/-- QAGenerationService._generate (qa_generation/service.py:38-44): first stage
with a non-empty result wins, empty list if all stages come back empty; an
exception raised by a stage aborts the loop and propagates. -/
def QAGenerationService.generateLoop {α : Type} :
    List (Except PErr (List α)) → Except PErr (List α)
  | [] => Except.ok []
  | r :: rest =>
    match r with
    | Except.error e => Except.error e
    | Except.ok qas =>
      if qas.isEmpty then QAGenerationService.generateLoop rest else Except.ok qas

/-- QAGenerationService._filter (qa_generation/service.py:46-51): all stages
must pass; the first negative verdict returns False; a stage exception
propagates. -/
def QAGenerationService.filterLoop : List (Except PErr Bool) → Except PErr Bool
  | [] => Except.ok true
  | r :: rest =>
    match r with
    | Except.error e => Except.error e
    | Except.ok b => if b then QAGenerationService.filterLoop rest else Except.ok false

/-- AnswerEnhancementService._enhance (answer_enhancement/service.py:49-55):
first non-empty enhanced answer wins, the original answer is the default. -/
def AnswerEnhancementService.enhanceLoop (answer : String) :
    List (Except PErr String) → Except PErr String
  | [] => Except.ok answer
  | r :: rest =>
    match r with
    | Except.error e => Except.error e
    | Except.ok s =>
      if s = "" then AnswerEnhancementService.enhanceLoop answer rest else Except.ok s

/-- AnswerEnhancementService._extract (answer_enhancement/service.py:57-63):
first non-empty description wins, the empty string is the default. -/
def AnswerEnhancementService.extractLoop : List (Except PErr String) → Except PErr String
  | [] => Except.ok ""
  | r :: rest =>
    match r with
    | Except.error e => Except.error e
    | Except.ok s =>
      if s = "" then AnswerEnhancementService.extractLoop rest else Except.ok s

/-- Inner loop body of SemanticProcessor.process (processors.py:45-63): keep
index i unless some previously kept index j has similarity above the
threshold. -/
def SemanticProcessor.keepStep (sim : Nat → Nat → ℚ) (θ : ℚ) (keep : List Nat)
    (i : Nat) : List Nat :=
  if keep.any (fun j => decide (θ < sim i j)) then keep else keep ++ [i]

/-- Indices kept by the single pass for i in range(n) of processors.py:45. -/
def SemanticProcessor.keepIndices (sim : Nat → Nat → ℚ) (θ : ℚ) (n : Nat) : List Nat :=
  (List.range n).foldl (SemanticProcessor.keepStep sim θ) []

/-- Recursive form of keepIndices, peeling the last loop iteration. -/
def SemanticProcessor.keepUpTo (sim : Nat → Nat → ℚ) (θ : ℚ) : Nat → List Nat
  | 0 => []
  | n + 1 => SemanticProcessor.keepStep sim θ (SemanticProcessor.keepUpTo sim θ n) n

/-- SemanticProcessor.process (processors.py:28-67): an empty batch is returned
as is, otherwise the kept indices select the retained pairs in input order.
sim i j is the cosine similarity of the embeddings of questions i and j,
embedded as a rational since only its order against the threshold is used. -/
def SemanticProcessor.process {α : Type} (sim : Nat → Nat → ℚ) (θ : ℚ)
    (qas : List α) : List α :=
  if qas.isEmpty then qas
  else (SemanticProcessor.keepIndices sim θ qas.length).filterMap (fun i => qas[i]?)

/-- Similarity table of the three-candidate dedup scenario: the second
candidate is a near duplicate of the first, everything else is far apart. -/
def simABC : Nat → Nat → ℚ
  | 1, 0 => 1
  | _, _ => 0

/-- Report dictionary returned by QAGenerationService.generate_qa
(qa_generation/service.py:81-87). -/
structure QAReport (α : Type) where
  generated_count : Nat
  filtered_count : Nat
  post_processed_count : Nat
  total : Nat
  qas : List α
deriving DecidableEq, Repr

/-- All-must-pass verdict of the filter pipeline on one pair, on the
exception-free path (qa_generation/service.py:46-51). -/
def QAGenerationService.passesAll {α : Type} (filters : List (α → Bool)) (qa : α) : Bool :=
  filters.all (fun f => f qa)

/-- QAGenerationService.generate_qa (qa_generation/service.py:59-87) on the
exception-free path: gen c is the generator pipeline result for context c,
filters are the per-pair filter verdicts, and the semantic processor is the
single post-processing stage. -/
def QAGenerationService.generate_qa {γ α : Type} (gen : γ → List α)
    (filters : List (α → Bool)) (sim : Nat → Nat → ℚ) (θ : ℚ)
    (contexts : List γ) : QAReport α :=
  let generated := contexts.flatMap gen
  let filtered := generated.filter (QAGenerationService.passesAll filters)
  let post := SemanticProcessor.process sim θ filtered
  { generated_count := generated.length, filtered_count := filtered.length,
    post_processed_count := post.length, total := post.length, qas := post }

/-- Concrete running job used by the lifecycle scenarios. -/
def jobRunningJ : JobRec :=
  { id := 1, job_id := "j", job_type := JobType.qa_generation, status := JobStatus.running,
    progress := 0, result := none, error := none, created_at := 0, updated_at := 0 }

/-- Concrete job that has already completed. -/
def jobCompletedJ : JobRec :=
  { id := 1, job_id := "j", job_type := JobType.qa_generation, status := JobStatus.completed,
    progress := 100, result := some "r", error := none, created_at := 0, updated_at := 0 }

/-- Handle of a task that unwinds with asyncio.CancelledError and performs no
cleanup writes of its own. -/
def thFine : TaskHandle := { unwind := Unwind.cancelled, effect := id }

/-- Handle of a task whose await raises an exception other than
asyncio.CancelledError. -/
def thRaise : TaskHandle := { unwind := Unwind.raised, effect := id }

/-- Manager state with one running job and its live handle, whose await raises. -/
def stC1 : MgrState := { store := [jobRunningJ], tasks := [("j", thRaise)], nextId := 2 }

/-- Manager state with one already completed job and no live handle. -/
def stC2 : MgrState := { store := [jobCompletedJ], tasks := [], nextId := 2 }

/-- Manager state with one running job and its well-behaved live handle. -/
def stC4 : MgrState := { store := [jobRunningJ], tasks := [("j", thFine)], nextId := 2 }

/-- Empty manager state. -/
def stE : MgrState := { store := [], tasks := [], nextId := 0 }

/-- Oldest row of the pagination scenario (created_at 5, surrogate key 1). -/
def jobA : JobRec :=
  { id := 1, job_id := "a", job_type := JobType.qa_generation, status := JobStatus.completed,
    progress := 100, result := some "ra", error := none, created_at := 5, updated_at := 5 }

/-- Newest row of the pagination scenario (created_at 7). -/
def jobB : JobRec :=
  { id := 2, job_id := "b", job_type := JobType.answer_enhancement, status := JobStatus.failed,
    progress := 0, result := none, error := some "eb", created_at := 7, updated_at := 7 }

/-- Row tied with jobA on created_at but inserted later (surrogate key 3). -/
def jobC : JobRec :=
  { id := 3, job_id := "c", job_type := JobType.qa_generation, status := JobStatus.completed,
    progress := 100, result := some "rc", error := none, created_at := 5, updated_at := 5 }

/-- Store of three persisted jobs for the pagination scenario. -/
def stPg : MgrState := { store := [jobA, jobB, jobC], tasks := [], nextId := 4 }

/-- The empty filter set: every row matches. -/
def fAll : JobFilters := {}

/-- One admissible execution order for the stPg listing: weakly descending on
created_at, with the tied rows jobC and jobA in reverse surrogate-key order. -/
def qTie1 : List JobRec := [jobB, jobC, jobA]

/-- Another admissible execution order for the same listing: the tied rows in
surrogate-key order this time. -/
def qTie2 : List JobRec := [jobB, jobA, jobC]

/-- A concrete transport error from the completion capability. -/
def perr : PErr := { msg := "connection reset" }

/-- Decoder behaviour for a response that is not valid JSON. -/
def decodeKeepNone : String → Option (Option Bool) := fun _ => none

/-- Decoder behaviour for a generator response parsing to an empty list. -/
def decodeNil : String → Except PErr (List Nat) := fun _ => Except.ok []

/-! Helper lemmas about the task table and the row update. -/

theorem lookupTask_popTask (ts : List (String × TaskHandle)) (k : String) :
    lookupTask (popTask ts k) k = none := by
  induction ts with
  | nil => rfl
  | cons p rest ih =>
    by_cases h : p.1 = k
    · simpa [popTask, List.filter_cons, h] using ih
    · simpa [popTask, List.filter_cons, h, lookupTask] using ih

theorem lookup_none_keys (ts : List (String × TaskHandle)) (k : String)
    (h : lookupTask ts k = none) : ∀ p ∈ ts, p.1 ≠ k := by
  induction ts with
  | nil => intro p hp; cases hp
  | cons q rest ih =>
    by_cases hq : q.1 = k
    · simp [lookupTask, hq] at h
    · intro p hp
      rcases List.mem_cons.mp hp with rfl | hp2
      · exact hq
      · exact ih (by simpa [lookupTask, hq] using h) p hp2

theorem popTask_eq_of_lookup_none (ts : List (String × TaskHandle)) (k : String)
    (h : lookupTask ts k = none) : popTask ts k = ts := by
  rw [popTask, List.filter_eq_self.mpr]
  intro p hp
  simp [lookup_none_keys ts k h p hp]

theorem lookupTask_append_of_none (ts ts2 : List (String × TaskHandle)) (k : String)
    (h : lookupTask ts k = none) : lookupTask (ts ++ ts2) k = lookupTask ts2 k := by
  induction ts with
  | nil => rfl
  | cons p rest ih =>
    by_cases hp : p.1 = k
    · simp [lookupTask, hp] at h
    · have h2 : lookupTask rest k = none := by simpa [lookupTask, hp] using h
      simpa [lookupTask, hp] using ih h2

theorem cancel_of_lookup_none (st : MgrState) (jid : String) (now : Nat) (b : Bool)
    (h : lookupTask st.tasks jid = none) :
    cancel_async_job st jid now b = { state := st, ret := some false } := by
  simp [cancel_async_job, h]

theorem dbUpdate_eq_of_not_mem (l : List JobRec) (jid : String) (kw : UpdateKw) (now : Nat)
    (h : ∀ r ∈ l, r.job_id ≠ jid) : dbUpdate l jid kw now = l := by
  induction l with
  | nil => rfl
  | cons r rest ih =>
    have hr : r.job_id ≠ jid := h r (List.mem_cons_self r rest)
    simp only [dbUpdate, List.map_cons, if_neg hr]
    have := ih (fun x hx => h x (List.mem_cons_of_mem r hx))
    simpa [dbUpdate] using this

theorem dbUpdate_append (l1 l2 : List JobRec) (jid : String) (kw : UpdateKw) (now : Nat) :
    dbUpdate (l1 ++ l2) jid kw now = dbUpdate l1 jid kw now ++ dbUpdate l2 jid kw now := by
  simp [dbUpdate]

theorem status_mem_dbUpdate (l : List JobRec) (jid : String) (kw : UpdateKw) (now : Nat)
    (s : JobStatus) (hs : kw.status = some s) :
    ∀ r ∈ dbUpdate l jid kw now, r.job_id = jid → r.status = s := by
  intro r hr hid
  rcases List.mem_map.mp hr with ⟨a, ha, rfl⟩
  by_cases hj : a.job_id = jid
  · simp [hj, applyKw, hs]
  · simp only [if_neg hj] at hid ⊢
    exact absurd hid hj

/-! C2. The spec claims a terminal status is never changed by a later update;
update_async_job issues an unconditional UPDATE, so any carried status is
written over a terminal one. -/

/-- C2 counterexample: a COMPLETED job is moved back to RUNNING by a plain
update call, so terminal states are not monotone. -/
theorem c2_counterexample :
    jobCompletedJ.status = JobStatus.completed ∧
    (update_async_job stC2 "j" { status := some JobStatus.running } 1
        true).state.store.map JobRec.status = [JobStatus.running] := by
  exact ⟨rfl, rfl⟩

/-- C2 amended: update_async_job applies the requested fields unconditionally;
whenever the kwargs carry a status, every row with the given job id ends with
exactly that status, regardless of the status it had before — terminal or not.
Monotonicity of terminal states is not enforced by the update path. -/
theorem c2_update_overwrites_terminal (st : MgrState) (jid : String) (kw : UpdateKw)
    (now : Nat) (s : JobStatus) (hs : kw.status = some s) :
    ∀ r ∈ (update_async_job st jid kw now true).state.store, r.job_id = jid → r.status = s := by
  intro r hr hid
  have hr2 : r ∈ dbUpdate st.store jid kw now := by
    simp only [update_async_job, if_true] at hr
    split at hr <;> simpa using hr
  exact status_mem_dbUpdate st.store jid kw now s hs r hr2 hid

/-- C2 witness: the amended statement at the concrete completed job. -/
theorem c2_witness :
    ({ status := some JobStatus.running : UpdateKw }).status = some JobStatus.running ∧
    ∀ r ∈ (update_async_job stC2 "j" { status := some JobStatus.running } 1 true).state.store,
      r.job_id = "j" → r.status = JobStatus.running :=
  ⟨rfl, c2_update_overwrites_terminal stC2 "j" { status := some JobStatus.running } 1
    JobStatus.running rfl⟩

/-! C3. A terminal update pops the handle inside the same call, and dict.pop
with a default makes the removal idempotent. -/

/-- C3: every update whose applied status is terminal removes the task handle
for that id in the same call, the call does not raise, and a second terminal
update for the same id succeeds as well and still leaves no handle. -/
theorem c3_terminal_update_removes_handle (st : MgrState) (jid : String) (kw : UpdateKw)
    (now now2 : Nat) (h : kw.isTerminalStatus = true) :
    lookupTask (update_async_job st jid kw now true).state.tasks jid = none ∧
    (update_async_job st jid kw now true).raised = false ∧
    (update_async_job (update_async_job st jid kw now true).state jid kw now2 true).raised
      = false ∧
    lookupTask
      (update_async_job (update_async_job st jid kw now true).state jid kw now2
        true).state.tasks jid = none := by
  refine ⟨?_, ?_, ?_, ?_⟩ <;>
    simp [update_async_job, h, lookupTask_popTask]

/-- C3 witness: the terminal update at a state holding a live handle. -/
theorem c3_witness :
    ({ status := some JobStatus.completed : UpdateKw }).isTerminalStatus = true ∧
    lookupTask
      (update_async_job stC4 "j" { status := some JobStatus.completed } 1
        true).state.tasks "j" = none :=
  ⟨rfl, (c3_terminal_update_removes_handle stC4 "j"
    { status := some JobStatus.completed } 1 2 rfl).1⟩

/-! C4. The spec claims the handle is removed even when the store write of a
terminal update fails; in the code the pop sits after the session block, so a
raised commit skips it. -/

/-- C4 counterexample: a terminal update whose store write raises leaves the
live handle in the table. -/
theorem c4_counterexample :
    ({ status := some JobStatus.failed : UpdateKw }).isTerminalStatus = true ∧
    (update_async_job stC4 "j" { status := some JobStatus.failed } 1 false).raised = true ∧
    (lookupTask (update_async_job stC4 "j" { status := some JobStatus.failed } 1
        false).state.tasks "j").isSome = true := by
  exact ⟨rfl, rfl, rfl⟩

/-- C4 amended: a store failure inside update_async_job propagates before the
handle removal, leaving the whole manager state (store and task table)
unchanged; only the cancel path removes the handle before persisting, so after
cancel no handle remains for the id even when its store write fails. -/
theorem c4_store_failure_keeps_handle (st : MgrState) (jid : String) (kw : UpdateKw)
    (now : Nat) :
    (update_async_job st jid kw now false).state = st ∧
    (update_async_job st jid kw now false).raised = true ∧
    lookupTask (cancel_async_job st jid now false).state.tasks jid = none := by
  refine ⟨rfl, rfl, ?_⟩
  cases hl : lookupTask st.tasks jid with
  | none => simp [cancel_async_job, hl]
  | some t => simp [cancel_async_job, hl, update_async_job, lookupTask_popTask]

/-! C1. Cancel semantics: pop first, then await, then persist CANCELLED in the
finally block. The claim is right about idempotence, the pop and the CANCELLED
write, but cancel only returns True when the awaited task unwinds normally or
with CancelledError; any other exception propagates after the finally. -/

/-- C1 counterexample: a live handle exists and the awaited task raises an
exception other than CancelledError; CANCELLED is still persisted by the finally block,
but cancel does not return true — the exception propagates. -/
theorem c1_counterexample :
    (lookupTask stC1.tasks "j").isSome = true ∧
    (cancel_async_job stC1 "j" 1 true).ret = none ∧
    (cancel_async_job stC1 "j" 1 true).state.store.map JobRec.status
      = [JobStatus.cancelled] := by
  exact ⟨rfl, rfl, rfl⟩

/-- C1 amended: with no live handle cancel returns false and mutates nothing.
With a live handle it removes the handle, and — when the CANCELLED write
succeeds — persists CANCELLED as the final status of every row of that job
regardless of how the task unwound, returning true exactly when the await did
not raise a foreign exception. Afterwards no handle for the id remains, and a
second cancel returns false without further changes, so two cancels yield at
most one true and one CANCELLED write. -/
theorem c1_cancel_amended (st : MgrState) (jid : String) (now : Nat) (storeOk : Bool) :
    (lookupTask st.tasks jid = none →
      cancel_async_job st jid now storeOk = { state := st, ret := some false }) ∧
    (∀ t, lookupTask st.tasks jid = some t → storeOk = true →
      (∀ r ∈ (cancel_async_job st jid now storeOk).state.store,
        r.job_id = jid → r.status = JobStatus.cancelled) ∧
      ((cancel_async_job st jid now storeOk).ret = some true ↔ t.unwind ≠ Unwind.raised)) ∧
    lookupTask (cancel_async_job st jid now storeOk).state.tasks jid = none ∧
    cancel_async_job (cancel_async_job st jid now storeOk).state jid now storeOk =
      { state := (cancel_async_job st jid now storeOk).state, ret := some false } := by
  have habsent : lookupTask (cancel_async_job st jid now storeOk).state.tasks jid = none := by
    cases hl : lookupTask st.tasks jid with
    | none => simp [cancel_async_job, hl]
    | some t =>
      cases storeOk with
      | false => simp [cancel_async_job, hl, update_async_job, lookupTask_popTask]
      | true =>
        cases hu : t.unwind <;>
          simp [cancel_async_job, hl, hu, update_async_job, UpdateKw.isTerminalStatus,
            JobStatus.isTerminal, lookupTask_popTask]
  refine ⟨?_, ?_, habsent, ?_⟩
  · intro h
    exact cancel_of_lookup_none st jid now storeOk h
  · intro t ht hok
    subst hok
    have hstore : (cancel_async_job st jid now true).state.store =
        dbUpdate (t.effect st.store) jid { status := some JobStatus.cancelled } now := by
      cases hu : t.unwind <;>
        simp [cancel_async_job, ht, hu, update_async_job, UpdateKw.isTerminalStatus,
          JobStatus.isTerminal]
    constructor
    · intro r hr hid
      rw [hstore] at hr
      exact status_mem_dbUpdate _ jid _ now JobStatus.cancelled rfl r hr hid
    · cases hu : t.unwind <;>
        simp [cancel_async_job, ht, hu, update_async_job, UpdateKw.isTerminalStatus,
          JobStatus.isTerminal]
  · exact cancel_of_lookup_none _ jid now storeOk habsent

/-! C5. Submission: persist PENDING, launch, register the handle, flip to
RUNNING; a launch failure is recorded as FAILED with the error text and the id
is still returned to the submitter. -/

/-- C5: create_async_job returns the fresh id in both outcomes; on a
successful launch the new row ends RUNNING and the handle is registered, and
on a launch failure the new row ends FAILED carrying the launch error text and
no handle is registered. -/
theorem c5_create_async_job (st : MgrState) (jid : String) (jt : JobType) (err : String)
    (h : TaskHandle) (now : Nat)
    (h1 : ∀ r ∈ st.store, r.job_id ≠ jid) (h2 : lookupTask st.tasks jid = none) :
    ((create_async_job st jid jt true err h now).2 = jid ∧
      (create_async_job st jid jt false err h now).2 = jid) ∧
    ((create_async_job st jid jt true err h now).1.store = st.store ++
        [{ id := st.nextId, job_id := jid, job_type := jt, status := JobStatus.running,
           progress := 0, result := none, error := none, created_at := now,
           updated_at := now }] ∧
      lookupTask (create_async_job st jid jt true err h now).1.tasks jid = some h) ∧
    ((create_async_job st jid jt false err h now).1.store = st.store ++
        [{ id := st.nextId, job_id := jid, job_type := jt, status := JobStatus.failed,
           progress := 0, result := none, error := some err, created_at := now,
           updated_at := now }] ∧
      lookupTask (create_async_job st jid jt false err h now).1.tasks jid = none) := by
  refine ⟨⟨rfl, rfl⟩, ⟨?_, ?_⟩, ⟨?_, ?_⟩⟩
  · simp only [create_async_job, update_async_job, if_true, UpdateKw.isTerminalStatus,
      JobStatus.isTerminal, Bool.false_eq_true, if_false]
    rw [dbUpdate_append, dbUpdate_eq_of_not_mem st.store jid _ now h1]
    simp [dbUpdate, applyKw]
  · simp only [create_async_job, update_async_job, if_true, UpdateKw.isTerminalStatus,
      JobStatus.isTerminal, Bool.false_eq_true, if_false, insertTask, h2, Option.isSome_none]
    rw [lookupTask_append_of_none st.tasks _ jid h2]
    simp [lookupTask]
  · simp only [create_async_job, update_async_job, if_true, UpdateKw.isTerminalStatus,
      JobStatus.isTerminal, Bool.false_eq_true, if_false]
    rw [dbUpdate_append, dbUpdate_eq_of_not_mem st.store jid _ now h1]
    simp [dbUpdate, applyKw]
  · simp only [create_async_job, update_async_job, if_true, UpdateKw.isTerminalStatus,
      JobStatus.isTerminal, Bool.false_eq_true, if_false]
    exact lookupTask_popTask _ jid

/-- C5 witness: submission into the empty manager state. -/
theorem c5_witness :
    (create_async_job stE "j" JobType.qa_generation true "boom" thFine 5).2 = "j" ∧
    (create_async_job stE "j" JobType.qa_generation false "boom" thFine 5).2 = "j" :=
  (c5_create_async_job stE "j" JobType.qa_generation "boom" thFine 5
    (by intro r hr; cases hr) rfl).1

/-! C6. Pagination: the listing is the OFFSET/LIMIT window of the row order
its query execution produced and total is the filtered count on every page.
The query has no secondary sort key, so the order of created_at ties is
backend-chosen: the surrogate-key tie-break the spec claims is not
guaranteed, and separate executions may resolve ties differently, so the
cross-page exactly-once property only holds for one fixed execution order
(or whenever the matching rows have no created_at ties, which makes the
admissible order unique). -/

theorem projectRow_created_at (wr : Bool) (r : JobRec) :
    (projectRow wr r).created_at = r.created_at := by
  cases wr <;> rfl

theorem flatMap_range_chunks {β : Type} (s k : Nat) (l : List β) :
    (List.range k).flatMap (fun i => (l.drop (i * s)).take s) = l.take (k * s) := by
  induction k with
  | zero => simp
  | succ k ih =>
    rw [List.range_succ, List.flatMap_append, ih]
    simp only [List.flatMap_cons, List.flatMap_nil, List.append_nil]
    rw [← List.take_add, Nat.succ_mul]

theorem le_ceilDiv_mul (n s : Nat) (hs : 1 ≤ s) : n ≤ ceilDiv n s * s := by
  have h := Nat.div_add_mod (n + s - 1) s
  have h2 : (n + s - 1) % s < s := Nat.mod_lt _ (by omega)
  rw [ceilDiv, Nat.mul_comm]
  omega

/-- C6 counterexample: the store stPg holds two rows tied on created_at
(jobA with surrogate key 1, jobC with surrogate key 3). Both qTie1 and qTie2
are admissible results of ORDER BY created_at DESC, yet qTie1 returns the
tied rows against the surrogate-key order, so the full first page is not in
the claimed lexicographic order; and three page-sized-1 queries whose
executions resolve the tie differently yield jobC twice and jobA never —
refuting both the tie-break and the cross-page exactly-once parts of the
claim. -/
theorem c6_counterexample :
    orderedByCreatedDesc (stPg.store.filter (rowMatches fAll)) qTie1 ∧
    orderedByCreatedDesc (stPg.store.filter (rowMatches fAll)) qTie2 ∧
    (get_async_jobs stPg 1 3 true fAll qTie1).items = [jobB, jobC, jobA] ∧
    ¬ List.Pairwise lexAfter [jobB, jobC, jobA] ∧
    ceilDiv (stPg.store.filter (rowMatches fAll)).length 1 = 3 ∧
    (get_async_jobs stPg 1 1 true fAll qTie1).items
        ++ (get_async_jobs stPg 2 1 true fAll qTie1).items
        ++ (get_async_jobs stPg 3 1 true fAll qTie2).items = [jobB, jobC, jobC] ∧
    jobA ∈ stPg.store.filter (rowMatches fAll) ∧
    jobA ∉ [jobB, jobC, jobC] := by
  refine ⟨by decide, by decide, by decide, by decide, by decide, by decide, by decide,
    by decide⟩

/-- C6 amended: for every admissible execution order q of the matching rows
(permutation, weakly descending on created_at — the tie order is not
specified by the query), every page returns total = the filtered count, the
items are the window of q at offset (page-1)*size, every page is weakly
descending on created_at, and pages 1..ceil(N/size) evaluated under the one
fixed order q join to exactly q (hence each matching record exactly once for
a single consistent execution order). When the matching rows have pairwise
distinct created_at values the admissible order is unique, so the exactly
once property then also holds across independent executions. -/
theorem c6_pagination (st : MgrState) (size : Nat) (wr : Bool) (f : JobFilters)
    (q : List JobRec) (hs : 1 ≤ size)
    (hq : orderedByCreatedDesc (st.store.filter (rowMatches f)) q) :
    (∀ page, (get_async_jobs st page size wr f q).total
        = (st.store.filter (rowMatches f)).length) ∧
    (∀ page, (get_async_jobs st page size wr f q).items
        = ((q.drop ((page - 1) * size)).take size).map (projectRow wr)) ∧
    (∀ page, List.Pairwise (fun a b => b.created_at ≤ a.created_at)
        (get_async_jobs st page size wr f q).items) ∧
    (List.range (ceilDiv (st.store.filter (rowMatches f)).length size)).flatMap
        (fun i => (get_async_jobs st (i + 1) size wr f q).items)
      = q.map (projectRow wr) ∧
    (((st.store.filter (rowMatches f)).map (fun r => r.created_at)).Nodup →
      ∀ q2, orderedByCreatedDesc (st.store.filter (rowMatches f)) q2 → q2 = q) := by
  have hlen : q.length = (st.store.filter (rowMatches f)).length := hq.1.length_eq
  refine ⟨fun page => rfl, fun page => rfl, ?_, ?_, ?_⟩
  · intro page
    have hsub : ((q.drop ((page - 1) * size)).take size).Sublist q :=
      (List.take_sublist _ _).trans (List.drop_sublist _ _)
    have hw := List.Pairwise.sublist hsub hq.2
    rw [show (get_async_jobs st page size wr f q).items
        = ((q.drop ((page - 1) * size)).take size).map (projectRow wr) from rfl,
      List.pairwise_map]
    simpa only [projectRow_created_at] using hw
  · have hle : (st.store.filter (rowMatches f)).length
        ≤ ceilDiv (st.store.filter (rowMatches f)).length size * size :=
      le_ceilDiv_mul _ _ hs
    simp only [get_async_jobs, Nat.add_sub_cancel]
    rw [← List.map_flatMap, flatMap_range_chunks,
      List.take_of_length_le (le_trans (le_of_eq hlen) hle)]
  · intro hnd q2 hq2
    have hperm : q2.Perm q := hq2.1.trans hq.1.symm
    have hndq : (q.map (fun r => r.created_at)).Nodup :=
      ((hq.1.map (fun r => r.created_at)).nodup_iff).mpr hnd
    have hndq2 : (q2.map (fun r => r.created_at)).Nodup :=
      ((hq2.1.map (fun r => r.created_at)).nodup_iff).mpr hnd
    have hstrict : List.Pairwise (fun a b : JobRec => b.created_at < a.created_at) q := by
      have hne : List.Pairwise (fun a b : JobRec => a.created_at ≠ b.created_at) q :=
        List.pairwise_map.mp hndq
      exact (hq.2.and hne).imp (fun h => lt_of_le_of_ne h.1 (fun hh => h.2 hh.symm))
    have hstrict2 : List.Pairwise (fun a b : JobRec => b.created_at < a.created_at) q2 := by
      have hne : List.Pairwise (fun a b : JobRec => a.created_at ≠ b.created_at) q2 :=
        List.pairwise_map.mp hndq2
      exact (hq2.2.and hne).imp (fun h => lt_of_le_of_ne h.1 (fun hh => h.2 hh.symm))
    haveI : IsAntisymm JobRec (fun a b => b.created_at < a.created_at) :=
      ⟨fun a b h1 h2 => absurd h2 (by omega)⟩
    exact List.eq_of_perm_of_sorted hperm hstrict2 hstrict

/-- C6 witness: the three-job store with a created_at tie, page size 2, under
one fixed admissible execution order. -/
theorem c6_witness :
    ((List.range (ceilDiv (stPg.store.filter (rowMatches fAll)).length 2)).flatMap
        (fun i => (get_async_jobs stPg (i + 1) 2 true fAll qTie2).items)
      = qTie2.map (projectRow true)) ∧
    (get_async_jobs stPg 1 2 true fAll qTie2).items = [jobB, jobA] ∧
    (get_async_jobs stPg 2 2 true fAll qTie2).items = [jobC] ∧
    (get_async_jobs stPg 2 2 true fAll qTie2).total = 3 :=
  ⟨(c6_pagination stPg 2 true fAll qTie2 (by decide) (by decide)).2.2.2.1, by decide,
    by decide, by decide⟩

/-! C7. The spec claims provider errors are caught at every stage boundary:
in the code only json.JSONDecodeError is caught (and only in the LLM filter);
a transport error from the completion call propagates out of both the
generator and the filter stages and aborts the pipeline loop. -/

/-- C7 counterexample: a provider error raised by the completion call
propagates out of the all-must-pass filter pipeline and out of the
first-success generator pipeline instead of being treated as abstention. -/
theorem c7_counterexample :
    QAGenerationService.filterLoop [LLMFilter.filter (Except.error perr) decodeKeepNone]
      = Except.error perr ∧
    QAGenerationService.generateLoop [LLMQAGenerator.generate (Except.error perr) decodeNil]
      = Except.error perr ∧
    Except.error perr ≠ (Except.ok true : Except PErr Bool) ∧
    Except.error perr ≠ (Except.ok [] : Except PErr (List Nat)) := by
  refine ⟨rfl, rfl, by simp, by simp⟩

/-- C7 amended: the completion call is not guarded at the stage boundary — a
provider error propagates out of the LLM filter stage, out of the generator
stage, and aborts both pipeline loops; only a malformed JSON response in the
LLM filter is recovered locally, as pass-through (keep). -/
theorem c7_provider_error_propagates (e : PErr) (dec : String → Option (Option Bool))
    (dec2 : String → Except PErr (List Nat)) (rest : List (Except PErr Bool))
    (rest2 : List (Except PErr (List Nat))) (content : String) :
    LLMFilter.filter (Except.error e) dec = Except.error e ∧
    LLMQAGenerator.generate (Except.error e) dec2 = Except.error e ∧
    QAGenerationService.filterLoop (Except.error e :: rest) = Except.error e ∧
    QAGenerationService.generateLoop (Except.error e :: rest2) = Except.error e ∧
    LLMFilter.filter (Except.ok content) (fun _ => none) = Except.ok true := by
  exact ⟨rfl, rfl, rfl, rfl, rfl⟩

/-! C8. First-success pipelines: strict declared order, first truthy result
wins and later stages do not matter, with capability-specific defaults. -/

theorem enhanceLoop_all_empty (ans : String) (pre : List String)
    (hpre : ∀ y ∈ pre, y = "") :
    AnswerEnhancementService.enhanceLoop ans (pre.map Except.ok) = Except.ok ans := by
  induction pre with
  | nil => rfl
  | cons y ys ih =>
    have hy : y = "" := hpre y (List.mem_cons_self _ _)
    subst hy
    simpa [AnswerEnhancementService.enhanceLoop] using
      ih (fun z hz => hpre z (List.mem_cons_of_mem _ hz))

theorem extractLoop_all_empty (pre : List String) (hpre : ∀ y ∈ pre, y = "") :
    AnswerEnhancementService.extractLoop (pre.map Except.ok) = Except.ok "" := by
  induction pre with
  | nil => rfl
  | cons y ys ih =>
    have hy : y = "" := hpre y (List.mem_cons_self _ _)
    subst hy
    simpa [AnswerEnhancementService.extractLoop] using
      ih (fun z hz => hpre z (List.mem_cons_of_mem _ hz))

theorem generateLoop_all_empty {α : Type} (pre : List (List α))
    (hpre : ∀ y ∈ pre, y = []) :
    QAGenerationService.generateLoop (pre.map Except.ok) = Except.ok [] := by
  induction pre with
  | nil => rfl
  | cons y ys ih =>
    have hy : y = [] := hpre y (List.mem_cons_self _ _)
    subst hy
    simpa [QAGenerationService.generateLoop] using
      ih (fun z hz => hpre z (List.mem_cons_of_mem _ hz))

/-- C8: in each first-success pipeline the first stage with a truthy result
determines the output whatever comes after it, and if every stage is empty
the capability default is returned: the original answer for enhance, the
empty string for extract, the empty list for generate. -/
theorem c8_first_success (pre suf : List String) (x ans : String)
    (preG : List (List Nat)) (xg : List Nat) (sufG : List (List Nat))
    (hpre : ∀ y ∈ pre, y = "") (hx : x ≠ "")
    (hpreG : ∀ y ∈ preG, y = []) (hxg : xg ≠ []) :
    AnswerEnhancementService.enhanceLoop ans ((pre ++ x :: suf).map Except.ok)
      = Except.ok x ∧
    AnswerEnhancementService.extractLoop ((pre ++ x :: suf).map Except.ok)
      = Except.ok x ∧
    QAGenerationService.generateLoop ((preG ++ xg :: sufG).map Except.ok)
      = Except.ok xg ∧
    AnswerEnhancementService.enhanceLoop ans (pre.map Except.ok) = Except.ok ans ∧
    AnswerEnhancementService.extractLoop (pre.map Except.ok) = Except.ok "" ∧
    QAGenerationService.generateLoop (preG.map Except.ok) = Except.ok [] := by
  refine ⟨?_, ?_, ?_, enhanceLoop_all_empty ans pre hpre, extractLoop_all_empty pre hpre,
    generateLoop_all_empty preG hpreG⟩
  · induction pre with
    | nil => simp [AnswerEnhancementService.enhanceLoop, hx]
    | cons y ys ih =>
      have hy : y = "" := hpre y (List.mem_cons_self _ _)
      subst hy
      simpa [AnswerEnhancementService.enhanceLoop] using
        ih (fun z hz => hpre z (List.mem_cons_of_mem _ hz))
  · induction pre with
    | nil => simp [AnswerEnhancementService.extractLoop, hx]
    | cons y ys ih =>
      have hy : y = "" := hpre y (List.mem_cons_self _ _)
      subst hy
      simpa [AnswerEnhancementService.extractLoop] using
        ih (fun z hz => hpre z (List.mem_cons_of_mem _ hz))
  · induction preG with
    | nil => simp [QAGenerationService.generateLoop, hxg]
    | cons y ys ih =>
      have hy : y = [] := hpreG y (List.mem_cons_self _ _)
      subst hy
      simpa [QAGenerationService.generateLoop] using
        ih (fun z hz => hpreG z (List.mem_cons_of_mem _ hz))

/-- C8 witness: the spec scenario of two empty stages followed by X, and the
all-empty pipelines falling back to their defaults. -/
theorem c8_witness :
    AnswerEnhancementService.enhanceLoop "orig" ((["", ""] ++ "X" :: []).map Except.ok)
      = Except.ok "X" ∧
    AnswerEnhancementService.extractLoop ((["", ""] ++ "X" :: []).map Except.ok)
      = Except.ok "X" ∧
    QAGenerationService.generateLoop (([[]] ++ [7] :: []).map Except.ok)
      = Except.ok [7] ∧
    AnswerEnhancementService.enhanceLoop "orig" ((["", ""] : List String).map Except.ok)
      = Except.ok "orig" ∧
    AnswerEnhancementService.extractLoop ((["", ""] : List String).map Except.ok)
      = Except.ok "" ∧
    QAGenerationService.generateLoop (([[]] : List (List Nat)).map Except.ok)
      = Except.ok [] :=
  c8_first_success ["", ""] [] "X" "orig" [[]] [7] [] (by decide) (by decide) (by decide)
    (by decide)

/-! C9. Semantic deduplication: single pass in input order, comparisons only
against previously retained candidates, first seen wins, output a subsequence
of the input, empty batch unchanged. -/

theorem keepIndices_eq_keepUpTo (sim : Nat → Nat → ℚ) (θ : ℚ) (n : Nat) :
    SemanticProcessor.keepIndices sim θ n = SemanticProcessor.keepUpTo sim θ n := by
  induction n with
  | zero => rfl
  | succ n ih =>
    rw [SemanticProcessor.keepIndices, List.range_succ, List.foldl_append]
    simp only [List.foldl_cons, List.foldl_nil]
    rw [← SemanticProcessor.keepIndices, ih]
    rfl

theorem mem_keepUpTo_lt (sim : Nat → Nat → ℚ) (θ : ℚ) (n j : Nat)
    (hj : j ∈ SemanticProcessor.keepUpTo sim θ n) : j < n := by
  induction n with
  | zero => cases hj
  | succ n ih =>
    unfold SemanticProcessor.keepUpTo SemanticProcessor.keepStep at hj
    split at hj
    · exact Nat.lt_succ_of_lt (ih hj)
    · rcases List.mem_append.mp hj with h2 | h2
      · exact Nat.lt_succ_of_lt (ih h2)
      · rcases List.mem_singleton.mp h2 with rfl
        exact Nat.lt_succ_self j

theorem mem_keepUpTo_mono (sim : Nat → Nat → ℚ) (θ : ℚ) (m n : Nat) (h : m ≤ n)
    (j : Nat) (hj : j ∈ SemanticProcessor.keepUpTo sim θ m) :
    j ∈ SemanticProcessor.keepUpTo sim θ n := by
  induction n with
  | zero =>
    have hm : m = 0 := Nat.le_zero.mp h
    subst hm
    exact hj
  | succ n ih =>
    by_cases hm : m = n + 1
    · subst hm
      exact hj
    · have h2 : j ∈ SemanticProcessor.keepUpTo sim θ n := ih (by omega)
      unfold SemanticProcessor.keepUpTo SemanticProcessor.keepStep
      split
      · exact h2
      · exact List.mem_append_left _ h2

theorem mem_keepUpTo_restrict (sim : Nat → Nat → ℚ) (θ : ℚ) (m n : Nat) (hmn : m ≤ n)
    (j : Nat) (hjm : j < m) (hj : j ∈ SemanticProcessor.keepUpTo sim θ n) :
    j ∈ SemanticProcessor.keepUpTo sim θ m := by
  induction n with
  | zero => exact absurd hjm (by omega)
  | succ n ih =>
    by_cases hm : m = n + 1
    · subst hm
      exact hj
    · refine ih (by omega) ?_
      unfold SemanticProcessor.keepUpTo SemanticProcessor.keepStep at hj
      split at hj
      · exact hj
      · rcases List.mem_append.mp hj with h2 | h2
        · exact h2
        · rcases List.mem_singleton.mp h2 with rfl
          exact absurd hjm (by omega)

theorem mem_keepUpTo_iff (sim : Nat → Nat → ℚ) (θ : ℚ) (n i : Nat) (hin : i < n) :
    i ∈ SemanticProcessor.keepUpTo sim θ n ↔
      ∀ j ∈ SemanticProcessor.keepUpTo sim θ i, sim i j ≤ θ := by
  constructor
  · intro h j hj
    have h1 : i ∈ SemanticProcessor.keepUpTo sim θ (i + 1) :=
      mem_keepUpTo_restrict sim θ (i + 1) n hin i (by omega) h
    unfold SemanticProcessor.keepUpTo SemanticProcessor.keepStep at h1
    split at h1
    · exact absurd (mem_keepUpTo_lt sim θ i i h1) (lt_irrefl i)
    · rename_i hany
      refine le_of_not_lt (fun hlt => hany ?_)
      exact List.any_eq_true.mpr ⟨j, hj, by simpa using hlt⟩
  · intro hall
    have h1 : i ∈ SemanticProcessor.keepUpTo sim θ (i + 1) := by
      unfold SemanticProcessor.keepUpTo SemanticProcessor.keepStep
      split
      · rename_i hany
        rcases List.any_eq_true.mp hany with ⟨j, hj, hlt⟩
        exact absurd (by simpa using hlt) (not_lt_of_le (hall j hj))
      · exact List.mem_append_right _ (List.mem_singleton.mpr rfl)
    exact mem_keepUpTo_mono sim θ (i + 1) n hin i h1

theorem mem_keepUpTo_final_iff (sim : Nat → Nat → ℚ) (θ : ℚ) (n i : Nat) :
    i ∈ SemanticProcessor.keepUpTo sim θ n ↔
      i < n ∧ ∀ j ∈ SemanticProcessor.keepUpTo sim θ n, j < i → sim i j ≤ θ := by
  constructor
  · intro h
    have hin := mem_keepUpTo_lt sim θ n i h
    refine ⟨hin, ?_⟩
    intro j hj hji
    have hj2 : j ∈ SemanticProcessor.keepUpTo sim θ i :=
      mem_keepUpTo_restrict sim θ i n (by omega) j hji hj
    exact (mem_keepUpTo_iff sim θ n i hin).mp h j hj2
  · rintro ⟨hin, hall⟩
    refine (mem_keepUpTo_iff sim θ n i hin).mpr ?_
    intro j hj
    have hji : j < i := mem_keepUpTo_lt sim θ i j hj
    exact hall j (mem_keepUpTo_mono sim θ i n (by omega) j hj) hji

theorem keepUpTo_filterMap_sublist {α : Type} (l : List α) (sim : Nat → Nat → ℚ)
    (θ : ℚ) (n : Nat) :
    ((SemanticProcessor.keepUpTo sim θ n).filterMap (fun i => l[i]?)).Sublist
      (l.take n) := by
  induction n with
  | zero => simp [SemanticProcessor.keepUpTo]
  | succ n ih =>
    unfold SemanticProcessor.keepUpTo SemanticProcessor.keepStep
    split
    · rw [List.take_succ]
      exact ih.trans (List.sublist_append_left _ _)
    · rw [List.filterMap_append, List.take_succ]
      refine List.Sublist.append ih ?_
      cases hn : l[n]? <;> simp [List.filterMap, hn]

theorem process_sublist {α : Type} (sim : Nat → Nat → ℚ) (θ : ℚ) (qas : List α) :
    (SemanticProcessor.process sim θ qas).Sublist qas := by
  unfold SemanticProcessor.process
  split
  · exact List.Sublist.refl _
  · rw [keepIndices_eq_keepUpTo]
    have h := keepUpTo_filterMap_sublist qas sim θ qas.length
    simpa [List.take_length] using h

/-- C9: the semantic deduplication stage returns an empty batch unchanged,
its output is a subsequence of the input (order preserved, single pass), an
index is retained if and only if its similarity to every previously retained
index is at or below the threshold (dropped candidates are never compared
against), and on the A, B, C scenario with sim(B,A) above the threshold the
retained list is [A, C]. -/
theorem c9_semantic_dedup (α : Type) :
    (∀ (sim : Nat → Nat → ℚ) (θ : ℚ), SemanticProcessor.process sim θ ([] : List α) = []) ∧
    (∀ (sim : Nat → Nat → ℚ) (θ : ℚ) (qas : List α),
      (SemanticProcessor.process sim θ qas).Sublist qas) ∧
    (∀ (sim : Nat → Nat → ℚ) (θ : ℚ) (n i : Nat),
      i ∈ SemanticProcessor.keepIndices sim θ n ↔
        i < n ∧ ∀ j ∈ SemanticProcessor.keepIndices sim θ n, j < i → sim i j ≤ θ) ∧
    SemanticProcessor.process simABC 0 [10, 20, 30] = [10, 30] := by
  refine ⟨fun sim θ => rfl, fun sim θ qas => process_sublist sim θ qas, ?_, ?_⟩
  · intro sim θ n i
    simp only [keepIndices_eq_keepUpTo]
    exact mem_keepUpTo_final_iff sim θ n i
  · decide

/-! C10. The report returned by generate_qa: counts agree with the stage
outputs, total is the final count, and every returned pair was generated and
passed every filter. -/

/-- C10: generated_count ≥ filtered_count ≥ post_processed_count, total equals
post_processed_count equals the length of qas, and every returned pair is one
of the generated candidates and passes every filter of the pipeline. -/
theorem c10_generate_qa_counts (γ α : Type) (gen : γ → List α)
    (filters : List (α → Bool)) (sim : Nat → Nat → ℚ) (θ : ℚ) (contexts : List γ) :
    (QAGenerationService.generate_qa gen filters sim θ contexts).filtered_count
      ≤ (QAGenerationService.generate_qa gen filters sim θ contexts).generated_count ∧
    (QAGenerationService.generate_qa gen filters sim θ contexts).post_processed_count
      ≤ (QAGenerationService.generate_qa gen filters sim θ contexts).filtered_count ∧
    (QAGenerationService.generate_qa gen filters sim θ contexts).total
      = (QAGenerationService.generate_qa gen filters sim θ contexts).post_processed_count ∧
    (QAGenerationService.generate_qa gen filters sim θ contexts).post_processed_count
      = (QAGenerationService.generate_qa gen filters sim θ contexts).qas.length ∧
    ∀ x ∈ (QAGenerationService.generate_qa gen filters sim θ contexts).qas,
      x ∈ contexts.flatMap gen ∧ ∀ fl ∈ filters, fl x = true := by
  refine ⟨List.length_filter_le _ _, (process_sublist sim θ _).length_le, rfl, rfl, ?_⟩
  intro x hx
  have hx2 : x ∈ (contexts.flatMap gen).filter (QAGenerationService.passesAll filters) :=
    (process_sublist sim θ _).subset hx
  rcases List.mem_filter.mp hx2 with ⟨hmem, hpass⟩
  refine ⟨hmem, ?_⟩
  intro fl hfl
  exact List.all_eq_true.mp hpass fl hfl

end VertuFaq
